import Mathlib

/-!
Shallow embedding of the Kai region-read overlap counting engine
(`src/main.rs`, `src/data_loader.rs`) and proofs about the claims of its
specification.

The embedding follows the source closely:
* `parse_bed_lines` embeds `parse_bed_file` (main.rs lines 22-52) over an
  already-read list of text lines; the Rust `.expect` panic on a bad integer
  is an `Except.error`.
* Hash maps (`region_counts`, `region_totals`) are association lists whose
  list order models the (unspecified) hash-table iteration order; `HashSet`
  is a duplicate-free list.  Lookup and `entry().or_insert` are `alookup`,
  `bump` and `bumpCell`.
* `overlapsFrom` embeds the CIGAR walk of main.rs lines 196-230 exactly as
  written, including its quirks (no cursor advance after a non-overlapping
  match-like block; insertions advance the reference cursor).
* `processRecord` embeds the per-record body of the region loop
  (main.rs lines 168-231); `runEngine` folds it over regions and records.
* The encoder definitions (`barcode_list`, `feature_list`, `barcode_map`,
  `matEntries`, `matrix_buffer`, `tsv_buffer`, `bulk_output`) embed the
  output section (main.rs lines 236-302).  `itertools`' `.sorted()` is
  `List.insertionSort`; string operations are re-implemented over `List
  Char` by structural recursion so that all definitions evaluate inside the
  kernel (Rust's `String` ordering and `char`-based splitting coincide with
  the character-list versions used here).
-/

namespace Kai

/-- Lexicographic comparison of character lists; agrees with Rust's `String`
ordering (byte order of UTF-8 agrees with code-point order). -/
def charListLe : List Char → List Char → Bool
  | [], _ => true
  | _ :: _, [] => false
  | a :: as, b :: bs => if a < b then true else if b < a then false else charListLe as bs

/-- String comparison used to model `.sorted()` on strings. -/
def strLe (a b : String) : Bool := charListLe a.data b.data

/-- Split a character list on a separator predicate, keeping empty fields,
like Rust's `str::split` with a `char` pattern. -/
def splitCharsAux (sep : Char → Bool) : List Char → List Char → List (List Char)
  | [], acc => [acc.reverse]
  | c :: cs, acc =>
    if sep c then acc.reverse :: splitCharsAux sep cs []
    else splitCharsAux sep cs (c :: acc)

/-- Fields of a string under a separator predicate (models `line.split(..)`). -/
def stringFields (sep : Char → Bool) (s : String) : List String :=
  (splitCharsAux sep s.data []).map String.mk

/-- Model of `line.starts_with('#')`. -/
def startsWithChar (c : Char) (s : String) : Bool :=
  match s.data with
  | c' :: _ => c' = c
  | [] => false

/-- Model of `line.trim().is_empty()`: the line is whitespace only. -/
def isBlank (s : String) : Bool := s.data.all (fun c => c.isWhitespace)

/-- Accumulating decimal parser over characters; `none` on a non-digit. -/
def charsToNatAux : List Char → Nat → Option Nat
  | [], acc => some acc
  | c :: cs, acc =>
    if c.isDigit then charsToNatAux cs (10 * acc + (c.toNat - 48)) else none

/-- Model of Rust's `str::parse::<usize>()`: an optional leading `+`, then a
nonempty run of decimal digits, value below `2 ^ 64` (64-bit `usize`). -/
def parseUsize (s : String) : Option Nat :=
  let chars := match s.data with
    | '+' :: rest => rest
    | l => l
  match chars with
  | [] => none
  | l => match charsToNatAux l 0 with
    | some v => if v < 2 ^ 64 then some v else none
    | none => none

/-- CIGAR operations, as in `rust_htslib`'s `Cigar` enum (main.rs uses
`Match`/`Equal`/`Diff`, `SoftClip`, `Ins`/`Del`/`RefSkip`; the remaining
variants fall into the catch-all `_ => 0` arm). -/
inductive Cigar where
  | Match (l : Nat)
  | Equal (l : Nat)
  | Diff (l : Nat)
  | SoftClip (l : Nat)
  | HardClip (l : Nat)
  | Pad (l : Nat)
  | Ins (l : Nat)
  | Del (l : Nat)
  | RefSkip (l : Nat)
deriving DecidableEq

/-- Genomic region from a BED line (main.rs lines 16-20). -/
structure Region where
  chromosome : String
  start : Nat
  «end» : Nat
deriving DecidableEq

/-- Region key string, `format!("{}:{}-{}", chrom, start, end)` (main.rs line 153). -/
def regionKey (r : Region) : String :=
  r.chromosome ++ ":" ++ toString r.start ++ "-" ++ toString r.«end»

/-- Alignment record as the engine sees it: position, CIGAR, optional `NH`
tag (a `u8`, hence `Fin 256`) and optional `CB` tag. -/
structure AlignmentRecord where
  pos : Int
  cigar : List Cigar
  nh : Option (Fin 256)
  cb : Option String
deriving DecidableEq

/-- Operating mode (`"bulk"` or `"single"`). -/
inductive Mode where
  | bulk
  | single
deriving DecidableEq

/-- Run configuration: `max_loci` (a `u32`), whether a cell-barcode file was
supplied, and the loaded allowlist (a set, modelled as a list). -/
structure Config where
  max_loci : Nat
  cell_barcode_file : Bool
  cell_barcodes_of_interest : List String
deriving DecidableEq

/-- Aggregation state: `region_counts` (region → barcode → count),
`region_totals` (region → count) and the observed-barcode set
(main.rs lines 139-141).  Hash maps are association lists; the list order
models the unspecified hash iteration order. -/
structure EngineState where
  region_counts : List (String × List (String × Nat))
  region_totals : List (String × Nat)
  cell_barcodes : List String
deriving DecidableEq

/-- Initial (empty) aggregation state. -/
def EngineState.empty : EngineState := ⟨[], [], []⟩

/-- Association-list lookup (model of `HashMap::get`). -/
def alookup {α : Type} (k : String) : List (String × α) → Option α
  | [] => none
  | (k', v) :: rest => if k' = k then some v else alookup k rest

/-- Model of `*map.entry(k).or_insert(0) += 1`. -/
def bump (k : String) : List (String × Nat) → List (String × Nat)
  | [] => [(k, 1)]
  | (k', v) :: rest => if k' = k then (k', v + 1) :: rest else (k', v) :: bump k rest

/-- Model of `*map.entry(k).or_insert_with(HashMap::new).entry(cb).or_insert(0) += 1`. -/
def bumpCell (k cb : String) :
    List (String × List (String × Nat)) → List (String × List (String × Nat))
  | [] => [(k, [(cb, 1)])]
  | (k', m) :: rest =>
    if k' = k then (k', bump cb m) :: rest else (k', m) :: bumpCell k cb rest

/-- Model of `HashSet::insert` (ignoring duplicates). -/
def setInsert (s : String) (l : List String) : List String :=
  if s ∈ l then l else l ++ [s]

/-- Embedding of `parse_bed_file` (main.rs lines 22-52) over the lines of
the BED file: comment and blank lines are skipped; a line with fewer than
three tab-separated fields is skipped with a debug diagnostic; a bad
start/end integer makes the Rust code panic via `.expect`, modelled as
`Except.error` carrying the offending line. -/
def parse_bed_lines : List String → Except String (List Region)
  | [] => .ok []
  | line :: rest =>
    if startsWithChar '#' line || isBlank line then parse_bed_lines rest
    else
      let fields := stringFields (fun c => c = '\t') line
      if fields.length < 3 then parse_bed_lines rest
      else
        match parseUsize (fields.getD 1 ""), parseUsize (fields.getD 2 "") with
        | some s, some e =>
          (parse_bed_lines rest).map (fun rs => ⟨fields.getD 0 "", s, e⟩ :: rs)
        | _, _ => .error line

/-- Reference-cursor advance of the final `else` arm of the CIGAR walk
(main.rs lines 225-228): insertions, deletions and reference skips advance
the cursor, everything else there adds 0. -/
def cigarGapAdvance : Cigar → Int
  | .Ins l => (l : Int)
  | .Del l => (l : Int)
  | .RefSkip l => (l : Int)
  | _ => 0

/-- The CIGAR walk of main.rs lines 201-230, exactly as written: a
match-like block that satisfies the overlap test returns `true` (the `break`
after counting); a match-like block that does not satisfy it leaves the
cursor unchanged (the source has no `current_pos += len` in that arm);
soft clips are skipped; other operations advance by `cigarGapAdvance`. -/
def overlapsFrom (region : Region) : List Cigar → Int → Bool
  | [], _ => false
  | c :: rest, pos =>
    match c with
    | .Match l | .Equal l | .Diff l =>
      if pos < (region.«end» : Int) ∧ pos + (l : Int) > (region.start : Int) then true
      else overlapsFrom region rest pos
    | .SoftClip _ => overlapsFrom region rest pos
    | c' => overlapsFrom region rest (pos + cigarGapAdvance c')

/-- Overlap decision for a record against a region (cursor starts at
`record.pos()`, main.rs line 196). -/
def overlapsImpl (region : Region) (r : AlignmentRecord) : Bool :=
  overlapsFrom region r.cigar r.pos

/-- Trace of the cursor values at which the walk of main.rs lines 201-230
examines each CIGAR operation (the walk stops after an overlapping
match-like block, as the source `break`s there). -/
def cursorListImpl (region : Region) : List Cigar → Int → List Int
  | [], _ => []
  | c :: rest, pos =>
    pos :: (match c with
      | .Match l | .Equal l | .Diff l =>
        if pos < (region.«end» : Int) ∧ pos + (l : Int) > (region.start : Int) then []
        else cursorListImpl region rest pos
      | .SoftClip _ => cursorListImpl region rest pos
      | c' => cursorListImpl region rest (pos + cigarGapAdvance c'))

/-- Modelled from the spec (§4.2 Overlap Detector): the same walk but with
the cursor advanced by `length` after a non-overlapping match-like block,
as the spec's step 2 prescribes.  Used to compare the source walk against
the specified walk. -/
def overlapsSpecWalk (region : Region) : List Cigar → Int → Bool
  | [], _ => false
  | c :: rest, pos =>
    match c with
    | .Match l | .Equal l | .Diff l =>
      if pos < (region.«end» : Int) ∧ pos + (l : Int) > (region.start : Int) then true
      else overlapsSpecWalk region rest (pos + (l : Int))
    | .SoftClip _ => overlapsSpecWalk region rest pos
    | c' => overlapsSpecWalk region rest (pos + cigarGapAdvance c')

/-- The `NH`-tag filter (main.rs lines 171-175): skip the record when the
tag is present (as a `u8`) and its value exceeds `max_loci as u8`, i.e.
`max_loci % 256`. -/
def nhSkip (max_loci : Nat) (r : AlignmentRecord) : Bool :=
  match r.nh with
  | some nh => decide ((nh : Nat) > max_loci % 256)
  | none => false

/-- Barcode extraction (main.rs lines 178-185): in single mode the `CB`
tag, in bulk mode `None`. -/
def extractCB (mode : Mode) (r : AlignmentRecord) : Option String :=
  match mode with
  | .single => r.cb
  | .bulk => none

/-- Allowlist rejection test (main.rs line 189): a barcode is rejected when
a barcode file was supplied, the loaded set is non-empty, and the barcode
is not a member. -/
def barcodeRejected (cfg : Config) : Option String → Bool
  | some cb =>
    cfg.cell_barcode_file && !(decide (cfg.cell_barcodes_of_interest = []))
      && !(decide (cb ∈ cfg.cell_barcodes_of_interest))
  | none => false

/-- Observed-barcode registration (main.rs line 192), reached only when the
allowlist test did not reject. -/
def registerBarcode (st : EngineState) : Option String → EngineState
  | some cb => { st with cell_barcodes := setInsert cb st.cell_barcodes }
  | none => st

/-- Count increment on an overlap (main.rs lines 208-219): single mode with
a barcode bumps the region × barcode cell, single mode without a barcode
does nothing, bulk mode bumps the region total. -/
def applyHit (mode : Mode) (key : String) (cb? : Option String)
    (st : EngineState) : EngineState :=
  match mode, cb? with
  | .single, some cb => { st with region_counts := bumpCell key cb st.region_counts }
  | .single, none => st
  | .bulk, _ => { st with region_totals := bump key st.region_totals }

/-- Per-record body of the region loop (main.rs lines 168-231): `NH`
filter, barcode extraction (single mode only), allowlist rejection,
observed-barcode registration, then the CIGAR walk and the mode-dependent
count increment. -/
def processRecord (mode : Mode) (cfg : Config) (region : Region)
    (st : EngineState) (r : AlignmentRecord) : EngineState :=
  if nhSkip cfg.max_loci r then st
  else if barcodeRejected cfg (extractCB mode r) then st
  else if overlapsImpl region r then
    applyHit mode (regionKey region) (extractCB mode r)
      (registerBarcode st (extractCB mode r))
  else registerBarcode st (extractCB mode r)

/-- Processing of one region: fold the per-record body over the records the
indexed reader yields for that region (main.rs lines 152-231). -/
def processRegion (mode : Mode) (cfg : Config) (st : EngineState)
    (region : Region) (records : List AlignmentRecord) : EngineState :=
  records.foldl (processRecord mode cfg region) st

/-- Whole counting pass: fold over the regions, each paired with the record
stream fetched for it. -/
def runEngine (mode : Mode) (cfg : Config)
    (input : List (Region × List AlignmentRecord)) : EngineState :=
  input.foldl (fun st p => processRegion mode cfg st p.1 p.2) EngineState.empty

/-- Sorted-iteration model of `iter().sorted()` over strings. -/
def sortedStrings (l : List String) : List String :=
  List.insertionSort (fun a b => strLe a b = true) l

/-- `barcode_list` of main.rs line 245: the observed barcodes, sorted. -/
def barcode_list (st : EngineState) : List String := sortedStrings st.cell_barcodes

/-- `feature_list` of main.rs line 252: the region keys with counts, sorted. -/
def feature_list (st : EngineState) : List String :=
  sortedStrings (st.region_counts.map Prod.fst)

/-- `barcode_map` of main.rs line 273: barcode → its 1-based position in
`barcode_list` (`enumerate().map(|(i, b)| (b, i + 1))`). -/
def barcode_map (st : EngineState) : List (String × Nat) :=
  (barcode_list st).enum.map (fun p => (p.2, p.1 + 1))

/-- One emitted nonzero entry: the row index `i + 1`, the emitted column
index `j + 1` (where `j` is the value found in `barcode_map`), and the
feature, barcode and count used for the long-form table line. -/
structure MatEntry where
  row : Nat
  col : Nat
  feature : String
  barcode : String
  count : Nat
deriving DecidableEq

/-- Entries emitted for one enumerated feature `p = (i, feature)` (main.rs
lines 276-283): look the feature's counts up, and for each
`(barcode, count)` pair in the inner map's iteration order emit an entry
when the barcode is found in `barcode_map` (value `j`), with row `i + 1`
and column `j + 1`. -/
def entryFor (st : EngineState) (p : Nat × String) : List MatEntry :=
  match alookup p.2 st.region_counts with
  | some cell_counts =>
    cell_counts.filterMap (fun q =>
      match alookup q.1 (barcode_map st) with
      | some j => some ⟨p.1 + 1, j + 1, p.2, q.1, q.2⟩
      | none => none)
  | none => []

/-- The entry-emission loop of main.rs lines 275-284: features in sorted
order with their 0-based `enumerate` index, each contributing its entries. -/
def matEntries (st : EngineState) : List MatEntry :=
  (feature_list st).enum.flatMap (entryFor st)

/-- Third component of the matrix dimensions line,
`region_counts.values().map(|c| c.len()).sum()` (main.rs line 268). -/
def num_nonzero (st : EngineState) : Nat :=
  (st.region_counts.map (fun p => p.2.length)).sum

/-- Lines of `matrix.mtx.gz` (main.rs lines 262-288): the two header lines,
the dimensions line, then one line per emitted entry. -/
def matrix_buffer (st : EngineState) : List String :=
  ["%%MatrixMarket matrix coordinate integer general", "%",
    toString (feature_list st).length ++ " " ++ toString (barcode_list st).length
      ++ " " ++ toString (num_nonzero st)]
  ++ (matEntries st).map (fun e => toString e.row ++ " " ++ toString e.col ++ " " ++ toString e.count)

/-- Lines of `count_barcodes.tsv.gz` (main.rs lines 274-284): a header, then
one tab-separated line per emitted entry. -/
def tsv_buffer (st : EngineState) : List String :=
  ["Feature\tBarcode\tCount"]
  ++ (matEntries st).map (fun e => e.feature ++ "\t" ++ e.barcode ++ "\t" ++ toString e.count)

/-- Comparator for `region_totals.iter().sorted()` (pairs ordered by key,
then count; keys are distinct so the key order decides). -/
def pairLeBulk (a b : String × Nat) : Bool :=
  if a.1 = b.1 then decide (a.2 ≤ b.2) else strLe a.1 b.1

/-- Data rows of `count.tsv.gz` (main.rs lines 298-301): the totals sorted,
the key split back on `:` and `-`, and the row printed with FOUR format
slots: chromosome, start, end, count. -/
def bulk_rows (st : EngineState) : List String :=
  (List.insertionSort (fun a b => pairLeBulk a b = true) st.region_totals).map (fun p =>
    let fields := stringFields (fun c => c = ':' || c = '-') p.1
    (fields.getD 0 "") ++ "\t" ++ (fields.getD 1 "") ++ "\t" ++ (fields.getD 2 "")
      ++ "\t" ++ toString p.2)

/-- Lines of `count.tsv.gz`: the five-column header (main.rs line 297)
followed by the data rows. -/
def bulk_output (st : EngineState) : List String :=
  ["Chr\tStart\tEnd\tRegion\tCount"] ++ bulk_rows st

/-- Pairs with a positive count across the whole single-cell count table. -/
def positivePairs (st : EngineState) : Nat :=
  (st.region_counts.map (fun p => (p.2.filter (fun q => decide (0 < q.2))).length)).sum

/-- Bulk count of a region key in the state. -/
def countOf (st : EngineState) (key : String) : Nat :=
  (alookup key st.region_totals).getD 0

/-- Single-cell count of a region key × barcode cell in the state. -/
def cellOf (st : EngineState) (key cb : String) : Nat :=
  (alookup cb ((alookup key st.region_counts).getD [])).getD 0

/-- Invariant maintained by the counting pass: every barcode stored in
`region_counts` is in the observed-barcode set, every stored count is
positive, and the region keys are distinct. -/
def goodState (st : EngineState) : Prop :=
  (∀ p ∈ st.region_counts, ∀ q ∈ p.2, q.1 ∈ st.cell_barcodes) ∧
  (∀ p ∈ st.region_counts, ∀ q ∈ p.2, 0 < q.2) ∧
  (st.region_counts.map Prod.fst).Nodup

/-- Region `chr1:100-200` used by several concrete scenarios. -/
def regionA : Region := ⟨"chr1", 100, 200⟩

/-- Configuration with `max_loci = 1` and no barcode allowlist. -/
def cfg0 : Config := ⟨1, false, []⟩

/-- Record at 150 with CIGAR `[Match(100)]`, `NH = 1`, barcode `AAAA`. -/
def recAAAA : AlignmentRecord := ⟨150, [.Match 100], some 1, some "AAAA"⟩

/-- Region `[15, 25)` on `chr1`, used for the cursor-advance scenario. -/
def regionC1 : Region := ⟨"chr1", 15, 25⟩

/-- Record at 0 with CIGAR `[Match(10), Match(10)]` (no tags): its two
match blocks jointly span `[0, 20)` on the reference. -/
def recC1 : AlignmentRecord := ⟨0, [.Match 10, .Match 10], none, none⟩

/-- Configuration with a supplied, non-empty allowlist `{AAAA}`. -/
def cfgC3 : Config := ⟨1, true, ["AAAA"]⟩

/-- Record at 150 with CIGAR `[Match(100)]`, barcode `TTTT` (not in the
`cfgC3` allowlist). -/
def recTTTT : AlignmentRecord := ⟨150, [.Match 100], none, some "TTTT"⟩

/-- Record at 150 with CIGAR `[Match(100)]` and `NH = 50`. -/
def recNH50 : AlignmentRecord := ⟨150, [.Match 100], some 50, none⟩

/-- Record at 150 with CIGAR `[Match(10)]` and barcode `B`. -/
def recB : AlignmentRecord := ⟨150, [.Match 10], none, some "B"⟩

/-- Record at 150 with CIGAR `[Match(10)]` and barcode `A`. -/
def recA : AlignmentRecord := ⟨150, [.Match 10], none, some "A"⟩

end Kai

namespace Kai

/-- `alookup` after `bump`: the bumped key maps to its old count (default 0)
plus one; every other key is unchanged. -/
theorem alookup_bump (k k' : String) (l : List (String × Nat)) :
    alookup k' (bump k l) =
      if k' = k then some ((alookup k l).getD 0 + 1) else alookup k' l := by
  induction l with
  | nil =>
    simp only [bump, alookup, Option.getD_none]
    split_ifs <;> simp_all
  | cons p rest ih =>
    obtain ⟨a, v⟩ := p
    simp only [bump, apply_ite (alookup k'), alookup]
    split_ifs <;> simp_all [alookup]

/-- `alookup` after `bumpCell`: the bumped region key maps to its old inner
map (default empty) with the barcode bumped; every other key is unchanged. -/
theorem alookup_bumpCell (k k' cb : String) (l : List (String × List (String × Nat))) :
    alookup k' (bumpCell k cb l) =
      if k' = k then some (bump cb ((alookup k l).getD [])) else alookup k' l := by
  induction l with
  | nil =>
    simp only [bumpCell, alookup, Option.getD_none]
    split_ifs <;> simp_all [bump]
  | cons p rest ih =>
    obtain ⟨a, m⟩ := p
    simp only [bumpCell, apply_ite (alookup k'), alookup]
    split_ifs <;> simp_all [alookup]

/-- Inserting into the observed-barcode set puts the barcode in the set. -/
theorem mem_setInsert_self (s : String) (l : List String) : s ∈ setInsert s l := by
  unfold setInsert
  split_ifs with h
  · exact h
  · simp

/-- Inserting into the observed-barcode set keeps existing members. -/
theorem mem_setInsert_of_mem {x : String} (s : String) {l : List String}
    (h : x ∈ l) : x ∈ setInsert s l := by
  unfold setInsert
  split_ifs
  · exact h
  · simp [h]

/-- Shape of the per-record step: it leaves the state unchanged, only
registers a barcode, registers a barcode and bumps its region × barcode
cell, or bumps the region total. -/
theorem processRecord_cases (mode : Mode) (cfg : Config) (region : Region)
    (st : EngineState) (r : AlignmentRecord) :
    processRecord mode cfg region st r = st ∨
    (∃ cb, processRecord mode cfg region st r =
        { st with cell_barcodes := setInsert cb st.cell_barcodes }) ∨
    (∃ cb, processRecord mode cfg region st r =
        { st with cell_barcodes := setInsert cb st.cell_barcodes,
                  region_counts := bumpCell (regionKey region) cb st.region_counts }) ∨
    processRecord mode cfg region st r =
      { st with region_totals := bump (regionKey region) st.region_totals } := by
  unfold processRecord
  split_ifs with h1 h2 h3
  · exact Or.inl rfl
  · exact Or.inl rfl
  · cases mode with
    | bulk =>
      exact Or.inr (Or.inr (Or.inr (by simp [extractCB, applyHit, registerBarcode])))
    | single =>
      cases hcb : r.cb with
      | none => exact Or.inl (by simp [extractCB, applyHit, registerBarcode, hcb])
      | some cb =>
        exact Or.inr (Or.inr (Or.inl ⟨cb, by simp [extractCB, applyHit, registerBarcode, hcb]⟩))
  · cases mode with
    | bulk => exact Or.inl (by simp [extractCB, registerBarcode])
    | single =>
      cases hcb : r.cb with
      | none => exact Or.inl (by simp [extractCB, registerBarcode, hcb])
      | some cb => exact Or.inr (Or.inl ⟨cb, by simp [extractCB, registerBarcode, hcb]⟩)

/-- Bumping a key raises any lookup by at most one. -/
theorem getD_alookup_bump_le (k key : String) (l : List (String × Nat)) :
    (alookup key (bump k l)).getD 0 ≤ (alookup key l).getD 0 + 1 := by
  rw [alookup_bump]
  split_ifs with h
  · subst h; simp
  · exact Nat.le_succ _

/-- Bumping one region × barcode cell raises any cell lookup by at most one. -/
theorem getD_alookup_bumpCell_le (k key cb cb' : String)
    (rc : List (String × List (String × Nat))) :
    (alookup cb ((alookup key (bumpCell k cb' rc)).getD [])).getD 0 ≤
      (alookup cb ((alookup key rc).getD [])).getD 0 + 1 := by
  rw [alookup_bumpCell]
  split_ifs with h
  · subst h
    simp only [Option.getD_some]
    exact getD_alookup_bump_le cb' cb _
  · exact Nat.le_succ _

/-- Every first component in a bumped inner map satisfies a predicate that
holds on the old map's first components and on the bumped barcode. -/
theorem bump_pred (S : String → Prop) (cb : String) (m : List (String × Nat))
    (hm : ∀ q ∈ m, S q.1) (hcb : S cb) : ∀ q ∈ bump cb m, S q.1 := by
  induction m with
  | nil =>
    intro q hq
    simp only [bump, List.mem_singleton] at hq
    rw [hq]
    exact hcb
  | cons p rest ih =>
    obtain ⟨a, v⟩ := p
    intro q hq
    simp only [bump] at hq
    split_ifs at hq with h
    · rcases List.mem_cons.mp hq with h' | h'
      · rw [h']
        exact hm (a, v) (List.mem_cons_self _ _)
      · exact hm q (List.mem_cons_of_mem _ h')
    · rcases List.mem_cons.mp hq with h' | h'
      · rw [h']
        exact hm (a, v) (List.mem_cons_self _ _)
      · exact ih (fun q hq => hm q (List.mem_cons_of_mem _ hq)) q h'

/-- Every count in a bumped inner map is positive when the old counts are. -/
theorem bump_pos (cb : String) (m : List (String × Nat))
    (hm : ∀ q ∈ m, 0 < q.2) : ∀ q ∈ bump cb m, 0 < q.2 := by
  induction m with
  | nil =>
    intro q hq
    simp only [bump, List.mem_singleton] at hq
    rw [hq]
    exact Nat.one_pos
  | cons p rest ih =>
    obtain ⟨a, v⟩ := p
    intro q hq
    simp only [bump] at hq
    split_ifs at hq with h
    · rcases List.mem_cons.mp hq with h' | h'
      · rw [h']
        exact Nat.succ_pos v
      · exact hm q (List.mem_cons_of_mem _ h')
    · rcases List.mem_cons.mp hq with h' | h'
      · rw [h']
        exact hm (a, v) (List.mem_cons_self _ _)
      · exact ih (fun q hq => hm q (List.mem_cons_of_mem _ hq)) q h'

/-- `bumpCell` preserves a predicate on all stored barcodes, provided the
bumped barcode satisfies it. -/
theorem bumpCell_pred (S : String → Prop) (k cb : String)
    (rc : List (String × List (String × Nat)))
    (h : ∀ p ∈ rc, ∀ q ∈ p.2, S q.1) (hcb : S cb) :
    ∀ p ∈ bumpCell k cb rc, ∀ q ∈ p.2, S q.1 := by
  induction rc with
  | nil =>
    intro p hp q hq
    simp only [bumpCell, List.mem_singleton] at hp
    rw [hp] at hq
    simp only [List.mem_singleton] at hq
    rw [hq]
    exact hcb
  | cons x rest ih =>
    obtain ⟨a, m⟩ := x
    intro p hp q hq
    simp only [bumpCell] at hp
    split_ifs at hp with hk
    · rcases List.mem_cons.mp hp with h' | h'
      · rw [h'] at hq
        exact bump_pred S cb m (fun q hq => h (a, m) (List.mem_cons_self _ _) q hq) hcb q hq
      · exact h p (List.mem_cons_of_mem _ h') q hq
    · rcases List.mem_cons.mp hp with h' | h'
      · rw [h'] at hq
        exact h (a, m) (List.mem_cons_self _ _) q hq
      · exact ih (fun p hp => h p (List.mem_cons_of_mem _ hp)) p h' q hq

/-- `bumpCell` preserves positivity of all stored counts. -/
theorem bumpCell_pos (k cb : String) (rc : List (String × List (String × Nat)))
    (h : ∀ p ∈ rc, ∀ q ∈ p.2, 0 < q.2) :
    ∀ p ∈ bumpCell k cb rc, ∀ q ∈ p.2, 0 < q.2 := by
  induction rc with
  | nil =>
    intro p hp q hq
    simp only [bumpCell, List.mem_singleton] at hp
    rw [hp] at hq
    simp only [List.mem_singleton] at hq
    rw [hq]
    exact Nat.one_pos
  | cons x rest ih =>
    obtain ⟨a, m⟩ := x
    intro p hp q hq
    simp only [bumpCell] at hp
    split_ifs at hp with hk
    · rcases List.mem_cons.mp hp with h' | h'
      · rw [h'] at hq
        exact bump_pos cb m (fun q hq => h (a, m) (List.mem_cons_self _ _) q hq) q hq
      · exact h p (List.mem_cons_of_mem _ h') q hq
    · rcases List.mem_cons.mp hp with h' | h'
      · rw [h'] at hq
        exact h (a, m) (List.mem_cons_self _ _) q hq
      · exact ih (fun p hp => h p (List.mem_cons_of_mem _ hp)) p h' q hq

/-- Region keys after `bumpCell`: unchanged when the key is present,
appended otherwise. -/
theorem bumpCell_keys (k cb : String) (rc : List (String × List (String × Nat))) :
    (bumpCell k cb rc).map Prod.fst =
      if k ∈ rc.map Prod.fst then rc.map Prod.fst else rc.map Prod.fst ++ [k] := by
  induction rc with
  | nil => simp [bumpCell]
  | cons x rest ih =>
    obtain ⟨a, m⟩ := x
    by_cases h1 : a = k
    · simp [bumpCell, h1]
    · have h1' : ¬ k = a := fun hh => h1 hh.symm
      by_cases h2 : k ∈ rest.map Prod.fst
      · simp [bumpCell, h1, h1', h2, ih]
      · simp [bumpCell, h1, h1', h2, ih]

/-- `bumpCell` keeps the region keys duplicate-free. -/
theorem bumpCell_nodup (k cb : String) (rc : List (String × List (String × Nat)))
    (h : (rc.map Prod.fst).Nodup) : ((bumpCell k cb rc).map Prod.fst).Nodup := by
  rw [bumpCell_keys]
  split_ifs with h1
  · exact h
  · rw [List.nodup_append]
    exact ⟨h, List.nodup_singleton _, by simpa using h1⟩

/-- The per-record step preserves the aggregation invariant. -/
theorem processRecord_goodState (mode : Mode) (cfg : Config) (region : Region)
    (st : EngineState) (r : AlignmentRecord) (hg : goodState st) :
    goodState (processRecord mode cfg region st r) := by
  obtain ⟨hmem, hpos, hnd⟩ := hg
  rcases processRecord_cases mode cfg region st r with h | ⟨cb0, h⟩ | ⟨cb0, h⟩ | h <;> rw [h]
  · exact ⟨hmem, hpos, hnd⟩
  · exact ⟨fun p hp q hq => mem_setInsert_of_mem cb0 (hmem p hp q hq), hpos, hnd⟩
  · refine ⟨?_, ?_, ?_⟩
    · exact bumpCell_pred _ _ _ _
        (fun p hp q hq => mem_setInsert_of_mem cb0 (hmem p hp q hq))
        (mem_setInsert_self cb0 st.cell_barcodes)
    · exact bumpCell_pos _ _ _ hpos
    · exact bumpCell_nodup _ _ _ hnd
  · exact ⟨hmem, hpos, hnd⟩

/-- The empty state satisfies the aggregation invariant. -/
theorem goodState_empty : goodState EngineState.empty := by
  refine ⟨?_, ?_, ?_⟩ <;> simp [EngineState.empty, goodState]

/-- Folding the per-record step over a record list preserves the invariant. -/
theorem processRegion_goodState (mode : Mode) (cfg : Config) (region : Region)
    (records : List AlignmentRecord) :
    ∀ st : EngineState, goodState st →
      goodState (processRegion mode cfg st region records) := by
  induction records with
  | nil => intro st h; exact h
  | cons r rest ih =>
    intro st h
    exact ih _ (processRecord_goodState mode cfg region st r h)

/-- The final state of the counting pass satisfies the invariant, for every
input (hence so does every intermediate state, each being the final state
of a prefix of the input). -/
theorem runEngine_goodState (mode : Mode) (cfg : Config)
    (input : List (Region × List AlignmentRecord)) :
    goodState (runEngine mode cfg input) := by
  have main : ∀ (l : List (Region × List AlignmentRecord)) (st : EngineState),
      goodState st →
      goodState (l.foldl (fun st p => processRegion mode cfg st p.1 p.2) st) := by
    intro l
    induction l with
    | nil => intro st h; exact h
    | cons p rest ih =>
      intro st h
      exact ih _ (processRegion_goodState mode cfg p.1 p.2 st h)
  exact main input EngineState.empty goodState_empty

/-- A successful association-list lookup produces a stored pair. -/
theorem alookup_mem {α : Type} {k : String} {v : α} {l : List (String × α)}
    (h : alookup k l = some v) : (k, v) ∈ l := by
  induction l with
  | nil => simp [alookup] at h
  | cons p rest ih =>
    obtain ⟨a, w⟩ := p
    simp only [alookup] at h
    split_ifs at h with ha
    · injection h with h2
      rw [← ha, ← h2]
      exact List.mem_cons_self _ _
    · exact List.mem_cons_of_mem _ (ih h)

/-- Looking a list member up in the 1-based index map built from its
enumeration succeeds. -/
theorem alookup_enumFrom_isSome (l : List String) (b : String) :
    b ∈ l → ∀ n : Nat,
      (alookup b ((l.enumFrom n).map (fun p => (p.2, p.1 + 1)))).isSome := by
  induction l with
  | nil => intro hb; cases hb
  | cons x rest ih =>
    intro hb n
    rcases List.mem_cons.mp hb with h | h
    · subst h
      simp [List.enumFrom, alookup]
    · by_cases hbx : x = b
      · simp [List.enumFrom, alookup, hbx]
      · simp only [List.enumFrom, List.map_cons, alookup]
        rw [if_neg hbx]
        exact ih h (n + 1)

/-- `filterMap` with a function that succeeds on every member keeps the
length. -/
theorem length_filterMap_of_isSome {α β : Type} (f : α → Option β) (l : List α)
    (h : ∀ x ∈ l, (f x).isSome) : (l.filterMap f).length = l.length := by
  induction l with
  | nil => rfl
  | cons x rest ih =>
    cases hfx : f x with
    | none =>
      exact absurd (h x (List.mem_cons_self _ _)) (by simp [hfx])
    | some b =>
      simp [List.filterMap_cons, hfx,
        ih (fun x hx => h x (List.mem_cons_of_mem _ hx))]

/-- Mapping a function of the element only over an enumeration forgets the
indices. -/
theorem enumFrom_map_snd {β : Type} (g : String → β) (l : List String) :
    ∀ n : Nat, (l.enumFrom n).map (fun p => g p.2) = l.map g := by
  induction l with
  | nil => intro n; rfl
  | cons x rest ih => intro n; simp [List.enumFrom, ih]

/-- A barcode of the observed set is found by the encoder's barcode map. -/
theorem barcode_lookup_isSome (st : EngineState) {b : String}
    (hb : b ∈ st.cell_barcodes) : (alookup b (barcode_map st)).isSome := by
  have hbl : b ∈ barcode_list st :=
    ((List.perm_insertionSort _ _).mem_iff).mpr hb
  exact alookup_enumFrom_isSome (barcode_list st) b hbl 0

/-- Under the aggregation invariant, no entry of a feature's inner map is
dropped: the emitted block has the inner map's length. -/
theorem entryFor_length (st : EngineState)
    (hmem : ∀ p ∈ st.region_counts, ∀ q ∈ p.2, q.1 ∈ st.cell_barcodes)
    (p : Nat × String) :
    (entryFor st p).length = ((alookup p.2 st.region_counts).getD []).length := by
  unfold entryFor
  cases hl : alookup p.2 st.region_counts with
  | none => simp
  | some m =>
    simp only [Option.getD_some]
    apply length_filterMap_of_isSome
    intro q hq
    have hkm : (p.2, m) ∈ st.region_counts := alookup_mem hl
    have hb : q.1 ∈ st.cell_barcodes := hmem _ hkm q hq
    have hs := barcode_lookup_isSome st hb
    cases halo : alookup q.1 (barcode_map st) with
    | none => rw [halo] at hs; simp at hs
    | some j => simp [halo]

/-- Looking each distinct key of an association list up enumerates exactly
the stored inner lists' lengths. -/
theorem map_keys_lookup_lengths (rc : List (String × List (String × Nat))) :
    (rc.map Prod.fst).Nodup →
      (rc.map Prod.fst).map (fun f => ((alookup f rc).getD []).length) =
        rc.map (fun p => p.2.length) := by
  induction rc with
  | nil => intro _; rfl
  | cons x rest ih =>
    obtain ⟨a, m⟩ := x
    intro hnd
    rw [List.map_cons, List.nodup_cons] at hnd
    obtain ⟨hna, hnd'⟩ := hnd
    simp only [List.map_cons]
    congr 1
    · simp [alookup]
    · have hstep : ∀ f ∈ rest.map Prod.fst,
          ((alookup f ((a, m) :: rest)).getD []).length =
            ((alookup f rest).getD []).length := by
        intro f hf
        have : ¬ a = f := fun hh => hna (hh ▸ hf)
        simp [alookup, this]
      rw [List.map_congr_left hstep, ih hnd']

/-- Under the aggregation invariant the number of emitted matrix entries is
exactly the dimensions line's third field. -/
theorem matEntries_length (st : EngineState) (hg : goodState st) :
    (matEntries st).length = num_nonzero st := by
  obtain ⟨hmem, _, hnd⟩ := hg
  unfold matEntries
  rw [List.length_flatMap]
  have h1 : (feature_list st).enum.map (List.length ∘ entryFor st)
      = (feature_list st).enum.map
        (fun p => ((alookup p.2 st.region_counts).getD []).length) :=
    List.map_congr_left (fun p _ => entryFor_length st hmem p)
  rw [h1]
  have h2 : (feature_list st).enum.map
      (fun p => ((alookup p.2 st.region_counts).getD []).length)
      = (feature_list st).map
        (fun f => ((alookup f st.region_counts).getD []).length) := by
    rw [show (feature_list st).enum = (feature_list st).enumFrom 0 from rfl]
    exact enumFrom_map_snd
      (fun f => ((alookup f st.region_counts).getD []).length) (feature_list st) 0
  rw [h2]
  have hperm : (feature_list st).Perm (st.region_counts.map Prod.fst) :=
    List.perm_insertionSort _ _
  rw [(hperm.map _).sum_eq, map_keys_lookup_lengths _ hnd]
  rfl

/-- The character-list order is transitive. -/
theorem charListLe_trans : ∀ (a b c : List Char),
    charListLe a b = true → charListLe b c = true → charListLe a c = true := by
  intro a
  induction a with
  | nil => intro b c _ _; rfl
  | cons x xs ih =>
    intro b c hab hbc
    cases b with
    | nil => simp [charListLe] at hab
    | cons y ys =>
      cases c with
      | nil => simp [charListLe] at hbc
      | cons z zs =>
        simp only [charListLe] at hab hbc ⊢
        by_cases h1 : x < y
        · by_cases h2 : y < z
          · rw [if_pos (lt_trans h1 h2)]
          · by_cases h3 : z < y
            · rw [if_neg h2, if_pos h3] at hbc
              exact absurd hbc (by simp)
            · have hyz : y = z := le_antisymm (not_lt.mp h3) (not_lt.mp h2)
              rw [if_pos (hyz ▸ h1)]
        · by_cases h4 : y < x
          · rw [if_neg h1, if_pos h4] at hab
            exact absurd hab (by simp)
          · have hxy : x = y := le_antisymm (not_lt.mp h4) (not_lt.mp h1)
            rw [if_neg h1, if_neg h4] at hab
            by_cases h2 : y < z
            · rw [if_pos (hxy ▸ h2)]
            · by_cases h3 : z < y
              · rw [if_neg h2, if_pos h3] at hbc
                exact absurd hbc (by simp)
              · have hyz : y = z := le_antisymm (not_lt.mp h3) (not_lt.mp h2)
                rw [if_neg h2, if_neg h3] at hbc
                have hxz : ¬ x < z := by rw [hxy, hyz]; exact lt_irrefl z
                have hzx : ¬ z < x := by rw [hxy, hyz]; exact lt_irrefl z
                rw [if_neg hxz, if_neg hzx]
                exact ih ys zs hab hbc

/-- The character-list order is total. -/
theorem charListLe_total : ∀ (a b : List Char),
    charListLe a b = true ∨ charListLe b a = true := by
  intro a
  induction a with
  | nil => intro b; exact Or.inl rfl
  | cons x xs ih =>
    intro b
    cases b with
    | nil => exact Or.inr rfl
    | cons y ys =>
      by_cases h1 : x < y
      · exact Or.inl (by simp [charListLe, h1])
      · by_cases h2 : y < x
        · exact Or.inr (by simp [charListLe, h2])
        · rcases ih ys with h | h
          · exact Or.inl (by simp [charListLe, h1, h2, h])
          · exact Or.inr (by simp [charListLe, h1, h2, h])

instance : IsTrans String (fun a b => strLe a b = true) :=
  ⟨fun a b c hab hbc => charListLe_trans a.data b.data c.data hab hbc⟩

instance : IsTotal String (fun a b => strLe a b = true) :=
  ⟨fun a b => charListLe_total a.data b.data⟩

/-- Every entry emitted for an enumerated feature `(i, f)` carries the row
index `i + 1`. -/
theorem entryFor_row (st : EngineState) (p : Nat × String) :
    ∀ e ∈ entryFor st p, e.row = p.1 + 1 := by
  intro e he
  unfold entryFor at he
  cases hl : alookup p.2 st.region_counts with
  | none => rw [hl] at he; cases he
  | some m =>
    rw [hl] at he
    obtain ⟨q, _, hq⟩ := List.mem_filterMap.mp he
    cases halo : alookup q.1 (barcode_map st) with
    | none => rw [halo] at hq; cases hq
    | some j =>
      rw [halo] at hq
      injection hq with hq
      rw [← hq]

/-- Every row index emitted while scanning an enumeration from `n` is at
least `n + 1`. -/
theorem entryRows_lb (st : EngineState) (l : List String) :
    ∀ n : Nat, ∀ e ∈ (l.enumFrom n).flatMap (entryFor st), n + 1 ≤ e.row := by
  induction l with
  | nil => intro n e he; cases he
  | cons x rest ih =>
    intro n e he
    rw [show List.enumFrom n (x :: rest) = (n, x) :: List.enumFrom (n + 1) rest from rfl,
      List.flatMap_cons] at he
    rcases List.mem_append.mp he with h | h
    · rw [entryFor_row st (n, x) e h]
    · exact le_trans (Nat.le_succ _) (ih (n + 1) e h)

/-- The row indices emitted while scanning an enumeration are nondecreasing. -/
theorem entryRows_pairwise (st : EngineState) (l : List String) :
    ∀ n : Nat,
      (((l.enumFrom n).flatMap (entryFor st)).map (fun e => e.row)).Pairwise (· ≤ ·) := by
  induction l with
  | nil => intro n; simp
  | cons x rest ih =>
    intro n
    rw [show List.enumFrom n (x :: rest) = (n, x) :: List.enumFrom (n + 1) rest from rfl,
      List.flatMap_cons, List.map_append]
    rw [List.pairwise_append]
    refine ⟨?_, ih (n + 1), ?_⟩
    · apply List.pairwise_of_forall_mem_list
      intro a ha b hb
      obtain ⟨ea, hea, hae⟩ := List.mem_map.mp ha
      obtain ⟨eb, heb, hbe⟩ := List.mem_map.mp hb
      rw [← hae, ← hbe, entryFor_row st (n, x) ea hea, entryFor_row st (n, x) eb heb]
    · intro a ha b hb
      obtain ⟨ea, hea, hae⟩ := List.mem_map.mp ha
      obtain ⟨eb, heb, hbe⟩ := List.mem_map.mp hb
      rw [← hae, ← hbe, entryFor_row st (n, x) ea hea]
      exact le_trans (Nat.le_succ _) (entryRows_lb st rest (n + 1) eb heb)

/-- Claim C1: the claim says the reference cursor is advanced by `length`
after a non-overlapping match-like block, so each later operation sees
`ref_start` plus the lengths of all preceding match-like and
reference-consuming-gap operations.  The code does not advance the cursor
in that arm: for region `[15,25)` and a record at 0 with CIGAR
`[Match(10), Match(10)]`, the source walk examines both blocks at cursor 0
(trace `[0, 0]`, not the claimed `[0, 10]`) and reports no overlap, while
the walk written in the spec (cursor advanced to 10) reports an overlap. -/
theorem kai_C1_cursor_bug :
    overlapsImpl regionC1 recC1 = false ∧
    overlapsSpecWalk regionC1 recC1.cigar recC1.pos = true ∧
    cursorListImpl regionC1 recC1.cigar recC1.pos = [0, 0] := by
  decide

/-- Claim C2: the claim says the emitted barcode column index equals the
barcode's 1-based line number in the barcodes file.  The code builds
`barcode_map` already 1-based and then emits `j + 1`: with one observed
barcode `AAAA` (line number 1, `barcode_map` value 1) and one feature with
count 2, the matrix is `[header, "%", "1 1 1", "1 2 2"]` — the entry's
column is 2, exceeding the declared single column, instead of the claimed
1 (the spec's own scenario expects entry `1 1 2`). -/
theorem kai_C2_column_bug :
    matrix_buffer (runEngine .single cfg0 [(regionA, [recAAAA, recAAAA])]) =
      ["%%MatrixMarket matrix coordinate integer general", "%", "1 1 1", "1 2 2"] ∧
    alookup ("AAAA") (barcode_map (runEngine .single cfg0 [(regionA, [recAAAA, recAAAA])]))
      = some 1 ∧
    (matEntries (runEngine .single cfg0 [(regionA, [recAAAA, recAAAA])])).map
      (fun e => e.col) = [2] := by
  decide

/-- Claim C3, counterexample: the claim says a record whose barcode fails
the supplied non-empty allowlist still has its barcode inserted into the
observed-barcode set.  In the code the `continue` precedes the insertion:
with allowlist `{AAAA}` and an overlapping record carrying barcode `TTTT`,
the final observed-barcode set is empty (so `TTTT` is not in it) and no
count is recorded. -/
theorem kai_C3_counterexample :
    recTTTT.cb = some ("TTTT") ∧
    cfgC3.cell_barcode_file = true ∧
    cfgC3.cell_barcodes_of_interest ≠ [] ∧
    ("TTTT" ∉ cfgC3.cell_barcodes_of_interest) ∧
    overlapsImpl regionA recTTTT = true ∧
    runEngine .single cfgC3 [(regionA, [recTTTT])] = EngineState.empty := by
  decide

/-- Claim C3, amended: in single-cell mode with a supplied non-empty
allowlist, a record whose barcode tag is present but absent from the
allowlist contributes to no region's count and its barcode is NOT inserted
into the observed-barcode set — the per-record step leaves the state
completely unchanged. -/
theorem kai_C3_amended (cfg : Config) (region : Region) (st : EngineState)
    (r : AlignmentRecord) (cb : String) (hcb : r.cb = some cb)
    (hfile : cfg.cell_barcode_file = true)
    (hne : cfg.cell_barcodes_of_interest ≠ [])
    (hmem : cb ∉ cfg.cell_barcodes_of_interest) :
    processRecord .single cfg region st r = st := by
  unfold processRecord
  have hrej : barcodeRejected cfg (extractCB .single r) = true := by
    simp [barcodeRejected, extractCB, hcb, hfile, hne, hmem]
  rw [hrej]
  simp

/-- Claim C3, witness for the amended statement at a concrete input. -/
theorem kai_C3_amended_witness :
    processRecord .single cfgC3 regionA EngineState.empty recTTTT = EngineState.empty :=
  kai_C3_amended cfgC3 regionA EngineState.empty recTTTT ("TTTT")
    (by decide) (by decide) (by decide) (by decide)

/-- Claim C4: the claim says each bulk data row prints five tab-separated
fields `chromosome, start, end, region_key, count`.  The code's format
string has only four slots (`fields[0], fields[1], fields[2], count`),
omitting the region key: for region `chr1:100-200` with one overlapping
passing record the emitted row is `chr1\t100\t200\t1`, not the claimed
`chr1\t100\t200\tchr1:100-200\t1`, under the five-column header. -/
theorem kai_C4_missing_region_column :
    bulk_output (runEngine .bulk cfg0 [(regionA, [recAAAA])]) =
      ["Chr\tStart\tEnd\tRegion\tCount", "chr1\t100\t200\t1"] ∧
    ("chr1\t100\t200\t1" : String) ≠ "chr1\t100\t200\tchr1:100-200\t1" := by
  decide

/-- Claim C5, counterexample: the claim says the nonzero entries are
emitted, within each feature, in sorted barcode order, making reruns
byte-identical.  The code iterates the inner hash map in its own
(unspecified) iteration order: feeding the same two records (barcodes `B`
and `A`, same region) in the two arrival orders produces the same abstract
counts for both barcodes but different matrix bytes, and with `B` first the
emitted barcode order `["B", "A"]` is not sorted. -/
theorem kai_C5_counterexample :
    (matEntries (runEngine .single cfg0 [(regionA, [recB, recA])])).map
      (fun e => e.barcode) = ["B", "A"] ∧
    ¬ ((matEntries (runEngine .single cfg0 [(regionA, [recB, recA])])).map
      (fun e => e.barcode)).Pairwise (fun a b => strLe a b = true) ∧
    matrix_buffer (runEngine .single cfg0 [(regionA, [recB, recA])]) ≠
      matrix_buffer (runEngine .single cfg0 [(regionA, [recA, recB])]) ∧
    cellOf (runEngine .single cfg0 [(regionA, [recB, recA])]) (regionKey regionA) ("A") =
      cellOf (runEngine .single cfg0 [(regionA, [recA, recB])]) (regionKey regionA) ("A") ∧
    cellOf (runEngine .single cfg0 [(regionA, [recB, recA])]) (regionKey regionA) ("B") =
      cellOf (runEngine .single cfg0 [(regionA, [recA, recB])]) (regionKey regionA) ("B") := by
  decide

/-- Claim C5, amended: the entry lines are emitted feature-major — the
emitted row indices are nondecreasing, features being scanned in sorted
order — and the features and barcodes index artifacts are sorted; but
within a feature the entries follow the inner map's iteration order, which
the source does not sort, so byte-identical reruns are not guaranteed by
the source (sorted inner iteration is a reimplementation mandate). -/
theorem kai_C5_amended (st : EngineState) :
    ((matEntries st).map (fun e => e.row)).Pairwise (· ≤ ·) ∧
    (feature_list st).Pairwise (fun a b => strLe a b = true) ∧
    (barcode_list st).Pairwise (fun a b => strLe a b = true) := by
  refine ⟨?_, ?_, ?_⟩
  · unfold matEntries
    rw [show (feature_list st).enum = (feature_list st).enumFrom 0 from rfl]
    exact entryRows_pairwise st (feature_list st) 0
  · exact List.sorted_insertionSort _ _
  · exact List.sorted_insertionSort _ _

/-- Claim C6, counterexample: the claim says the locus filter excludes a
record iff its locus-count tag is present and exceeds `max_loci`, for every
configured `max_loci`.  The code compares against `max_loci as u8`: with
`max_loci = 300` (truncated to 44) a record with `NH = 50` is skipped even
though 50 does not exceed 300 — it is excluded from counting despite an
overlapping match block. -/
theorem kai_C6_counterexample :
    nhSkip 300 recNH50 = true ∧
    recNH50.nh = some 50 ∧
    ¬ ((50 : Nat) > 300) ∧
    overlapsImpl regionA recNH50 = true ∧
    processRecord .bulk ⟨300, false, []⟩ regionA EngineState.empty recNH50 =
      EngineState.empty := by
  decide

/-- Claim C6, amended: the locus filter fires iff the `NH` tag is present
and its value exceeds `max_loci` truncated to eight bits (`max_loci % 256`,
the `as u8` cast); when it fires the record is excluded from all counting —
the per-record step returns the state unchanged. -/
theorem kai_C6_amended (mode : Mode) (cfg : Config) (region : Region)
    (st : EngineState) (r : AlignmentRecord) :
    (nhSkip cfg.max_loci r = true ↔
      ∃ v : Fin 256, r.nh = some v ∧ (v : Nat) > cfg.max_loci % 256) ∧
    (nhSkip cfg.max_loci r = true → processRecord mode cfg region st r = st) := by
  constructor
  · unfold nhSkip
    cases hnh : r.nh with
    | none => simp
    | some v => simp
  · intro h
    unfold processRecord
    rw [if_pos h]

/-- Claim C6, witness for the amended statement at a concrete input. -/
theorem kai_C6_amended_witness :
    (∃ v : Fin 256, recNH50.nh = some v ∧ (v : Nat) > 300 % 256) ∧
    processRecord .bulk ⟨300, false, []⟩ regionA EngineState.empty recNH50 =
      EngineState.empty := by
  constructor
  · exact (kai_C6_amended .bulk ⟨300, false, []⟩ regionA EngineState.empty recNH50).1.mp
      (by decide)
  · exact (kai_C6_amended .bulk ⟨300, false, []⟩ regionA EngineState.empty recNH50).2
      (by decide)

/-- Claim C7: for every record and region (whatever the CIGAR, even with
several match-like blocks overlapping the region), one per-record step
raises any bulk region count and any region × barcode cell by at most one:
the walk stops at the first overlapping match block. -/
theorem kai_C7_at_most_once (mode : Mode) (cfg : Config) (region : Region)
    (st : EngineState) (r : AlignmentRecord) (key cb : String) :
    countOf (processRecord mode cfg region st r) key ≤ countOf st key + 1 ∧
    cellOf (processRecord mode cfg region st r) key cb ≤ cellOf st key cb + 1 := by
  rcases processRecord_cases mode cfg region st r with h | ⟨cb0, h⟩ | ⟨cb0, h⟩ | h <;> rw [h]
  · exact ⟨Nat.le_succ _, Nat.le_succ _⟩
  · exact ⟨Nat.le_succ _, Nat.le_succ _⟩
  · exact ⟨Nat.le_succ _,
      getD_alookup_bumpCell_le (regionKey region) key cb cb0 st.region_counts⟩
  · exact ⟨getD_alookup_bump_le (regionKey region) key st.region_totals, Nat.le_succ _⟩

/-- Claim C8: for every input, the third field of the dimensions line
(the sum of the inner maps' sizes) equals the number of (feature, barcode)
pairs with a positive count in the count table, and the matrix has exactly
that many entry lines after its three header lines. -/
theorem kai_C8_dims (mode : Mode) (cfg : Config)
    (input : List (Region × List AlignmentRecord)) :
    num_nonzero (runEngine mode cfg input) = positivePairs (runEngine mode cfg input) ∧
    (matEntries (runEngine mode cfg input)).length = num_nonzero (runEngine mode cfg input) ∧
    (matrix_buffer (runEngine mode cfg input)).length =
      3 + num_nonzero (runEngine mode cfg input) := by
  obtain ⟨hmem, hpos, hnd⟩ := runEngine_goodState mode cfg input
  have hlen : (matEntries (runEngine mode cfg input)).length =
      num_nonzero (runEngine mode cfg input) :=
    matEntries_length _ ⟨hmem, hpos, hnd⟩
  refine ⟨?_, hlen, ?_⟩
  · unfold num_nonzero positivePairs
    congr 1
    apply List.map_congr_left
    intro p hp
    have hfil : p.2.filter (fun q => decide (0 < q.2)) = p.2 :=
      List.filter_eq_self.mpr (fun q hq => by simpa using hpos p hp q hq)
    rw [hfil]
  · unfold matrix_buffer
    rw [List.length_append, List.length_map, hlen]
    rfl

/-- Claim C9: region-list parsing skips a non-comment, non-blank line with
fewer than three tab-separated fields and continues with the remaining
lines, whereas such a line with at least three fields whose start or end
field does not parse as an unsigned integer aborts the run (the Rust
`.expect` panic, an error here). -/
theorem kai_C9_parse (line : String) (rest : List String)
    (hcomment : startsWithChar '#' line = false)
    (hblank : isBlank line = false) :
    ((stringFields (fun c => c = '\t') line).length < 3 →
      parse_bed_lines (line :: rest) = parse_bed_lines rest) ∧
    (3 ≤ (stringFields (fun c => c = '\t') line).length →
      (parseUsize ((stringFields (fun c => c = '\t') line).getD 1 "") = none ∨
        parseUsize ((stringFields (fun c => c = '\t') line).getD 2 "") = none) →
      parse_bed_lines (line :: rest) = Except.error line) := by
  have hc : (startsWithChar '#' line || isBlank line) = false := by
    rw [hcomment, hblank]; rfl
  constructor
  · intro hlen
    simp only [parse_bed_lines, hc]
    simp [hlen]
  · intro hlen hbad
    simp only [parse_bed_lines, hc]
    simp only [Bool.false_eq_true, if_false]
    rw [if_neg (Nat.not_lt.mpr hlen)]
    rcases hbad with h | h
    · rw [h]
    · rw [h]
      cases parseUsize ((stringFields (fun c => c = '\t') line).getD 1 "") <;> rfl

/-- Claim C9, witness: a two-field line is skipped and parsing continues; a
three-field line with a non-integer start aborts. -/
theorem kai_C9_parse_witness :
    parse_bed_lines ["chr1\t10", "chr2\t1\t2"] = parse_bed_lines ["chr2\t1\t2"] ∧
    parse_bed_lines ["chr1\tx\t2"] = Except.error ("chr1\tx\t2") := by
  constructor
  · exact (kai_C9_parse ("chr1\t10") ["chr2\t1\t2"] (by decide) (by decide)).1 (by decide)
  · exact (kai_C9_parse ("chr1\tx\t2") [] (by decide) (by decide)).2 (by decide)
      (Or.inl (by decide))

/-- Claim C10: after processing any input (hence at every intermediate
state, each being the final state of a prefix), every barcode stored in the
per-region count table is in the observed-barcode set; consequently the
barcode-to-column lookup succeeds for every stored pair and no entry is
dropped: the matrix has exactly `num_nonzero` entry lines and the long-form
table exactly `num_nonzero` data rows. -/
theorem kai_C10_no_drop (mode : Mode) (cfg : Config)
    (input : List (Region × List AlignmentRecord)) :
    (∀ p ∈ (runEngine mode cfg input).region_counts, ∀ q ∈ p.2,
        q.1 ∈ (runEngine mode cfg input).cell_barcodes) ∧
    (∀ p ∈ (runEngine mode cfg input).region_counts, ∀ q ∈ p.2,
        (alookup q.1 (barcode_map (runEngine mode cfg input))).isSome) ∧
    (matEntries (runEngine mode cfg input)).length = num_nonzero (runEngine mode cfg input) ∧
    (tsv_buffer (runEngine mode cfg input)).length =
      1 + num_nonzero (runEngine mode cfg input) := by
  obtain ⟨hmem, hpos, hnd⟩ := runEngine_goodState mode cfg input
  have hlen : (matEntries (runEngine mode cfg input)).length =
      num_nonzero (runEngine mode cfg input) :=
    matEntries_length _ ⟨hmem, hpos, hnd⟩
  refine ⟨hmem, ?_, hlen, ?_⟩
  · intro p hp q hq
    exact barcode_lookup_isSome _ (hmem p hp q hq)
  · unfold tsv_buffer
    rw [List.length_append, List.length_map, hlen]
    rfl

/-- Claim C10, witness: on a concrete run the stored barcode is observed,
its column lookup succeeds, and the long-form table has one data row. -/
theorem kai_C10_no_drop_witness :
    ("AAAA" ∈ (runEngine .single cfg0 [(regionA, [recAAAA])]).cell_barcodes) ∧
    (alookup ("AAAA") (barcode_map (runEngine .single cfg0 [(regionA, [recAAAA])]))).isSome ∧
    (tsv_buffer (runEngine .single cfg0 [(regionA, [recAAAA])])).length =
      1 + num_nonzero (runEngine .single cfg0 [(regionA, [recAAAA])]) := by
  have h := kai_C10_no_drop .single cfg0 [(regionA, [recAAAA])]
  refine ⟨?_, ?_, h.2.2.2⟩
  · exact h.1 ("chr1:100-200", [("AAAA", 1)]) (by decide) ("AAAA", 1) (by decide)
  · exact h.2.1 ("chr1:100-200", [("AAAA", 1)]) (by decide) ("AAAA", 1) (by decide)

end Kai
